import Mathlib

/-!
Verification of the rule-driven recursive cleanup engine (src/src/manager.rs).

The filesystem is modelled as a finite tree of named nodes.  Each node is
either a regular file or a directory with a list of children.  Two boolean
flags model the environment-dependent IO outcomes that the Rust code reacts
to: `readable` is false when `fs::read_dir` on that directory would fail,
and `locked` is true when `fs::remove_file` / `fs::remove_dir_all` on that
entry would fail.  Console output (println / eprintln) is modelled as a list
of `Event`s so that reporting behaviour can be stated.
-/

namespace Cleanup

/-- Target kind of a rule, from the `Kind` enum used by `manager.rs`
(`Kind::File`, `Kind::Folder`). -/
inductive Kind where
  | File
  | Folder
deriving DecidableEq, Repr

/-- A filesystem entry: a regular file or a directory with children.
`readable = false` models a directory whose `fs::read_dir` fails;
`locked = true` models an entry whose removal (`fs::remove_file` or
`fs::remove_dir_all`) fails. -/
inductive FSNode where
  | file (name : String) (locked : Bool)
  | dir (name : String) (readable : Bool) (locked : Bool) (children : List FSNode)
deriving Repr

/-- Base name of an entry, as returned by `Path::file_name`. -/
def FSNode.name : FSNode → String
  | .file n _ => n
  | .dir n _ _ _ => n

/-- Live type check `Path::is_dir`. -/
def FSNode.isDir : FSNode → Bool
  | .file _ _ => false
  | .dir _ _ _ _ => true

/-- Live type check `Path::is_file`. -/
def FSNode.isFile : FSNode → Bool
  | .file _ _ => true
  | .dir _ _ _ _ => false

/-- Whether removal of this entry would fail (environment model). -/
def FSNode.locked : FSNode → Bool
  | .file _ l => l
  | .dir _ _ l _ => l

/-- Case folding used for every pattern and exclusion comparison, the
counterpart of `str::to_lowercase`, applied character by character. -/
def lowercase (s : String) : String :=
  String.mk (s.toList.map Char.toLower)

/-- The `helper::find` function: first index of `list` whose element equals
`item` after lowercasing both sides
(`list.iter().position(|n| n.to_lowercase() == item.to_lowercase())`). -/
def find (item : String) (list : List String) : Option Nat :=
  list.findIdx? (fun n => lowercase n == lowercase item)

/-- Characters after the last dot of a list, if any dot occurs. -/
def afterLastDot : List Char → Option (List Char)
  | [] => none
  | '.' :: rest =>
    match afterLastDot rest with
    | some r => some r
    | none => some rest
  | _ :: rest => afterLastDot rest

/-- Rust `Path::extension` semantics on a base name: the portion after the
last dot; `none` when there is no dot, or when the only dot is the leading
character (a dotfile such as ".gitignore" has no extension).  Searching for
dots only past the first character implements exactly that rule. -/
def extensionOpt (n : String) : Option String :=
  match n.toList with
  | [] => none
  | _ :: rest =>
    match afterLastDot rest with
    | some r => some (String.mk r)
    | none => none

/-- Exclusion test used inside `helper::childern`: the entry name occurs
(case-insensitively) in the exclude list. -/
def isExcluded (exclude : List String) (nm : String) : Bool :=
  (find nm exclude).isSome

/-- The matcher `helper::pattern_check`: for a Folder rule an entry matches
when it is currently a directory and its base name is found in `patterns`;
for a File rule when it is currently a regular file and its extension
(`extension().unwrap_or_default()`, so a missing extension becomes the empty
string) is found in `patterns`; otherwise no match. -/
def pattern_check (node : FSNode) (patterns : List String) (kind : Kind) : Option Nat :=
  if kind = Kind.Folder && node.isDir then
    find node.name patterns
  else if kind = Kind.File && node.isFile then
    find ((extensionOpt node.name).getD "") patterns
  else
    none

/-- One line of console output of the engine. -/
inductive Event where
  | excludeMsg (nm : String)
  | removingMsg (nm : String)
  | removedMsg (nm : String)
  | removeErrMsg (nm : String)
  | readDirErrMsg
  | readEntryErrMsg
deriving DecidableEq, Repr

/-- Events that witness a call of the deletion routine `helper::remove_item`
(its Ok branch prints Removed, its Err branch prints Error). -/
def Event.isRemovalCall : Event → Bool
  | .removedMsg _ => true
  | .removeErrMsg _ => true
  | _ => false

/-- Events produced while handling a matched entry: the intent message and
the outcome of the deletion routine. -/
def Event.isRemovalEvent : Event → Bool
  | .removingMsg _ => true
  | .removedMsg _ => true
  | .removeErrMsg _ => true
  | _ => false

/-- Whether an event reports a failed removal (the eprintln in the Err arm
of `helper::remove`). -/
def Event.isRemoveErr : Event → Bool
  | .removeErrMsg _ => true
  | _ => false

/-- The Exclude lines printed by `helper::childern` while filtering the
listing of `cs` against `exclude`, in listing order. -/
def excludeEvents (exclude : List String) (cs : List FSNode) : List Event :=
  cs.filterMap (fun c =>
    if isExcluded exclude c.name then some (Event.excludeMsg c.name) else none)

/-- The loop body of `helper::remove` over the children of one directory.
The source first builds the filtered listing via `helper::childern` and then
iterates it; here the exclusion filter is applied in place while iterating
(an excluded child is skipped, stays on disk untouched, and produces no
event here — its Exclude line is emitted by the listing phase, see
`removeNode` and `childern`).  For each listed child: if `pattern_check`
matches, a Removing line is printed and, unless `dry`, `remove_item` is
invoked (success drops the child and prints Removed, failure keeps it and
prints an error); otherwise a directory child is recursed into
(`helper::remove(child, ...)`: a readable directory is processed, an
unreadable one reports a listing failure and is left as is) and a file
child is left alone. -/
def processList (k : Kind) (ps ex : List String) (dry : Bool) : List FSNode → List FSNode × List Event
  | [] => ([], [])
  | c :: rest =>
    let tail := processList k ps ex dry rest
    if isExcluded ex c.name then
      (c :: tail.1, tail.2)
    else if (pattern_check c ps k).isSome then
      if dry then
        (c :: tail.1, Event.removingMsg c.name :: tail.2)
      else if c.locked then
        (c :: tail.1, Event.removingMsg c.name :: Event.removeErrMsg c.name :: tail.2)
      else
        (tail.1, Event.removingMsg c.name :: Event.removedMsg c.name :: tail.2)
    else
      match c with
      | FSNode.dir nm true lk cs =>
        let inner := processList k ps ex dry cs
        (FSNode.dir nm true lk inner.1 :: tail.1,
          (excludeEvents ex cs ++ inner.2) ++ tail.2)
      | FSNode.dir nm false lk cs =>
        (FSNode.dir nm false lk cs :: tail.1, Event.readDirErrMsg :: tail.2)
      | FSNode.file nm lk =>
        (FSNode.file nm lk :: tail.1, tail.2)

/-- `helper::remove` applied to one existing entry: listing a regular file
or an unreadable directory fails (reported, nothing changes); for a readable
directory the Exclude lines of the listing phase are followed by the
processing of the children. -/
def removeNode (k : Kind) (ps ex : List String) (dry : Bool) : FSNode → FSNode × List Event
  | FSNode.file n l => (FSNode.file n l, [Event.readDirErrMsg])
  | FSNode.dir n false l cs => (FSNode.dir n false l cs, [Event.readDirErrMsg])
  | FSNode.dir n true l cs =>
    let r := processList k ps ex dry cs
    (FSNode.dir n true l r.1, excludeEvents ex cs ++ r.2)

/-- Path resolution: follow a list of component names from a root node
(`Path::exists` of `destination` resolves against the live tree; a file has
no children, a directory resolves by the first child of the given name). -/
def lookup : List String → FSNode → Option FSNode
  | [], t => some t
  | _ :: _, FSNode.file _ _ => none
  | nm :: rest, FSNode.dir _ _ _ cs =>
    match cs.find? (fun c => c.name == nm) with
    | some c => lookup rest c
    | none => none

/-- Write back a transformed subtree at a path (the in-place mutation the
Rust code performs through the real filesystem). -/
def update : List String → FSNode → FSNode → FSNode
  | [], _, newNode => newNode
  | _ :: _, FSNode.file n l, _ => FSNode.file n l
  | nm :: rest, FSNode.dir n r l cs, newNode =>
    match cs.findIdx? (fun c => c.name == nm) with
    | none => FSNode.dir n r l cs
    | some i =>
      match cs[i]? with
      | none => FSNode.dir n r l cs
      | some c => FSNode.dir n r l (cs.set i (update rest c newNode))

/-- `helper::remove` invoked on a destination path against the whole tree:
the leading `destination.exists()` guard returns immediately when the path
does not resolve; otherwise the resolved entry is processed and the result
written back. -/
def removeAt (root : FSNode) (dest : List String) (k : Kind) (ps ex : List String)
    (dry : Bool) : FSNode × List Event :=
  match lookup dest root with
  | none => (root, [])
  | some t =>
    let r := removeNode k ps ex dry t
    (update dest root r.1, r.2)

/-- One raw `read_dir` outcome: either the whole listing fails, or it yields
a sequence of per-entry outcomes, each of which may itself fail. -/
def DirListing := Except String (List (Except String FSNode))

/-- Loop body of `helper::childern` over the raw entries: a failed entry is
reported and skipped; a successful entry is either suppressed with an
Exclude line (when its name is in the exclude list) or appended to the
children. -/
def childernLoop (exclude : List String) : List (Except String FSNode) → List FSNode × List Event
  | [] => ([], [])
  | Except.error _ :: rest =>
    let r := childernLoop exclude rest
    (r.1, Event.readEntryErrMsg :: r.2)
  | Except.ok e :: rest =>
    let r := childernLoop exclude rest
    if isExcluded exclude e.name then
      (r.1, Event.excludeMsg e.name :: r.2)
    else
      (e :: r.1, r.2)

/-- `helper::childern`: on a failed `read_dir` the failure is reported and
the (empty) accumulated children are returned; otherwise the entries are
folded by `childernLoop`. -/
def childern (listing : DirListing) (exclude : List String) : List FSNode × List Event :=
  match listing with
  | Except.error _ => ([], [Event.readDirErrMsg])
  | Except.ok entries => childernLoop exclude entries

/-- One cleanup rule (struct `Config`): destination path, target kind,
patterns, and an optional exclude list. -/
structure Config where
  destination : List String
  kind : Kind
  patterns : List String
  exclude : Option (List String)

/-- The `Manager`: validated rules and the dry-run flag. -/
structure Manager where
  configs : List Config
  dryrun : Bool

/-- `Manager::new`. -/
def Manager.new : Manager :=
  { configs := [], dryrun := false }

/-- Body of one iteration of the loop in `Manager::execute`:
`helper::remove(&config.destination, &config.kind, &config.patterns,
&config.exclude.clone().unwrap_or_default(), self.dryrun)`. -/
def ruleStep (dry : Bool) (fs : FSNode) (c : Config) : FSNode × List Event :=
  removeAt fs c.destination c.kind c.patterns (c.exclude.getD []) dry

/-- The loop of `Manager::execute` over the configs, threading the
filesystem and accumulating the console output. -/
def executeLoop (dry : Bool) : List Config → FSNode → FSNode × List Event
  | [], fs => (fs, [])
  | c :: cs, fs =>
    let r := ruleStep dry fs c
    let r2 := executeLoop dry cs r.1
    (r2.1, r.2 ++ r2.2)

/-- The sequential run expressed as a left fold over the rule list
(specification-side formulation compared against the loop of
`Manager::execute`). -/
def runFold (dry : Bool) (cs : List Config) (fs : FSNode) : FSNode × List Event :=
  cs.foldl (fun acc c =>
    let r := ruleStep dry acc.1 c
    (r.1, acc.2 ++ r.2)) (fs, [])

/-- Error kinds of the application (`AppErrorKind::Usage` plus the error
conversions applied by the question-mark operator in `Manager::parse`). -/
inductive AppError where
  | usage (msg : String)
  | ioErr (msg : String)
  | parseErr (msg : String)
deriving DecidableEq, Repr

/-- `Manager::execute`: iterate the rules in order and return `Ok(())`. -/
def Manager.execute (m : Manager) (fs : FSNode) : (FSNode × List Event) × Except AppError Unit :=
  (executeLoop m.dryrun m.configs fs, Except.ok ())

/-- Environment describing a config file handed to `Manager::validate`:
whether the path exists, its base name (whose extension is checked), the
outcome of `fs::read_to_string`, and the outcome of `serde_json::from_str`
on the text read. -/
structure ConfigFile where
  pathExists : Bool
  fileName : String
  readResult : Except String String
  parseResult : Except String (List Config)

/-- Environment describing the destination given on the command line:
its path and the results of the live `exists` and `is_dir` checks. -/
structure DestInfo where
  path : List String
  pathExists : Bool
  isDirFlag : Bool

/-- The `Engine` input of `Manager::validate` (CLI-derived fields). -/
structure Engine where
  config : Option ConfigFile
  destination : Option DestInfo
  kind : Option Kind
  patterns : Option (List String)
  exclude : Option (List String)
  dryrun : Bool

/-- `Manager::parse`: `fs::read_to_string(path)?` then
`self.configs = serde_json::from_str(&json_data)?`; the configs field is
replaced only when both steps succeed. -/
def Manager.parse (m : Manager) (cf : ConfigFile) : Manager × Except AppError Unit :=
  match cf.readResult with
  | Except.error e => (m, Except.error (AppError.ioErr e))
  | Except.ok _ =>
    match cf.parseResult with
    | Except.error e => (m, Except.error (AppError.parseErr e))
    | Except.ok cfgs => ({ m with configs := cfgs }, Except.ok ())

/-- `Manager::format` followed by `Manager::add`: push one rule built from
the discrete CLI fields. -/
def Manager.format (m : Manager) (d : DestInfo) (k : Kind) (ps : List String)
    (ex : Option (List String)) : Manager × Except AppError Unit :=
  ({ m with configs := m.configs ++ [⟨d.path, k, ps, ex⟩] }, Except.ok ())

/-- `Manager::validate`: first overwrites `self.dryrun` with
`engine.dryrun`; then, when a config path is given, checks existence and
the lowercased extension against "json" before delegating to
`Manager::parse`; otherwise requires destination, kind and patterns, checks
the destination exists and is a directory, and stores the synthesized rule.
(The relative-to-absolute path step touches only the path value and is
modelled as the identity.) -/
def Manager.validate (m : Manager) (e : Engine) : Manager × Except AppError Unit :=
  let m := { m with dryrun := e.dryrun }
  match e.config with
  | some cf =>
    if !cf.pathExists then
      (m, Except.error (AppError.usage "config file missing"))
    else if lowercase ((extensionOpt cf.fileName).getD "") != "json" then
      (m, Except.error (AppError.usage "config file is not a JSON file"))
    else
      m.parse cf
  | none =>
    match e.destination with
    | none => (m, Except.error (AppError.usage "missing destination"))
    | some d =>
      match e.kind with
      | none => (m, Except.error (AppError.usage "missing kind"))
      | some k =>
        match e.patterns with
        | none => (m, Except.error (AppError.usage "missing patterns"))
        | some ps =>
          if !d.pathExists then
            (m, Except.error (AppError.usage "destination missing"))
          else if !d.isDirFlag then
            (m, Except.error (AppError.usage "destination is not a directory"))
          else
            m.format d k ps e.exclude

/-- Trace of a walk that matches nothing: the Exclude lines of every listed
directory and the read failures of unreadable ones, visiting the entire
subtree (specification-side description used to state that an empty pattern
set still recurses everywhere). -/
def traverseList (ex : List String) : List FSNode → List Event
  | [] => []
  | c :: rest =>
    let tail := traverseList ex rest
    if isExcluded ex c.name then tail
    else
      match c with
      | FSNode.file _ _ => tail
      | FSNode.dir _ false _ _ => Event.readDirErrMsg :: tail
      | FSNode.dir _ true _ cs => (excludeEvents ex cs ++ traverseList ex cs) ++ tail

/-- Trace of a match-nothing walk started at one entry. -/
def traverseEvents (ex : List String) : FSNode → List Event
  | FSNode.file _ _ => [Event.readDirErrMsg]
  | FSNode.dir _ false _ _ => [Event.readDirErrMsg]
  | FSNode.dir _ true _ cs => excludeEvents ex cs ++ traverseList ex cs

/-- The regular files among a list of entries, with their removal flag
(observation used to state that a Folder rule never deletes a file that sits
directly in a visited directory). -/
def filesOf (cs : List FSNode) : List (String × Bool) :=
  cs.filterMap fun c =>
    match c with
    | FSNode.file n l => some (n, l)
    | FSNode.dir _ _ _ _ => none

/-- The directories among a list of entries, keeping name and flags
(children are dropped, since a recursed-into directory keeps everything but
its children). -/
def dirsOf (cs : List FSNode) : List (String × Bool × Bool) :=
  cs.filterMap fun c =>
    match c with
    | FSNode.file _ _ => none
    | FSNode.dir n r l _ => some (n, r, l)

/-! Unfolding lemmas for the walker loop, one per branch. -/

theorem processList_nil (k : Kind) (ps ex : List String) (dry : Bool) :
    processList k ps ex dry [] = ([], []) := by
  simp [processList]

theorem processList_cons_excluded (k : Kind) (ps ex : List String) (dry : Bool)
    (c : FSNode) (rest : List FSNode) (h : isExcluded ex c.name = true) :
    processList k ps ex dry (c :: rest) =
      (c :: (processList k ps ex dry rest).1, (processList k ps ex dry rest).2) := by
  rw [processList.eq_def]
  simp [h]

theorem processList_cons_matched_dry (k : Kind) (ps ex : List String)
    (c : FSNode) (rest : List FSNode) (h1 : isExcluded ex c.name = false)
    (h2 : (pattern_check c ps k).isSome = true) :
    processList k ps ex true (c :: rest) =
      (c :: (processList k ps ex true rest).1,
        Event.removingMsg c.name :: (processList k ps ex true rest).2) := by
  rw [processList.eq_def]
  simp [h1, h2]

theorem processList_cons_matched_locked (k : Kind) (ps ex : List String)
    (c : FSNode) (rest : List FSNode) (h1 : isExcluded ex c.name = false)
    (h2 : (pattern_check c ps k).isSome = true) (h3 : c.locked = true) :
    processList k ps ex false (c :: rest) =
      (c :: (processList k ps ex false rest).1,
        Event.removingMsg c.name :: Event.removeErrMsg c.name ::
          (processList k ps ex false rest).2) := by
  rw [processList.eq_def]
  simp [h1, h2, h3]

theorem processList_cons_matched_removed (k : Kind) (ps ex : List String)
    (c : FSNode) (rest : List FSNode) (h1 : isExcluded ex c.name = false)
    (h2 : (pattern_check c ps k).isSome = true) (h3 : c.locked = false) :
    processList k ps ex false (c :: rest) =
      ((processList k ps ex false rest).1,
        Event.removingMsg c.name :: Event.removedMsg c.name ::
          (processList k ps ex false rest).2) := by
  rw [processList.eq_def]
  simp [h1, h2, h3]

theorem processList_cons_dir_readable (k : Kind) (ps ex : List String) (dry : Bool)
    (nm : String) (lk : Bool) (cs rest : List FSNode)
    (h1 : isExcluded ex nm = false)
    (h2 : pattern_check (FSNode.dir nm true lk cs) ps k = none) :
    processList k ps ex dry (FSNode.dir nm true lk cs :: rest) =
      (FSNode.dir nm true lk (processList k ps ex dry cs).1 ::
          (processList k ps ex dry rest).1,
        (excludeEvents ex cs ++ (processList k ps ex dry cs).2) ++
          (processList k ps ex dry rest).2) := by
  rw [processList]
  simp [FSNode.name, h1, h2]

theorem processList_cons_dir_unreadable (k : Kind) (ps ex : List String) (dry : Bool)
    (nm : String) (lk : Bool) (cs rest : List FSNode)
    (h1 : isExcluded ex nm = false)
    (h2 : pattern_check (FSNode.dir nm false lk cs) ps k = none) :
    processList k ps ex dry (FSNode.dir nm false lk cs :: rest) =
      (FSNode.dir nm false lk cs :: (processList k ps ex dry rest).1,
        Event.readDirErrMsg :: (processList k ps ex dry rest).2) := by
  rw [processList]
  simp [FSNode.name, h1, h2]

theorem processList_cons_file_unmatched (k : Kind) (ps ex : List String) (dry : Bool)
    (nm : String) (lk : Bool) (rest : List FSNode)
    (h1 : isExcluded ex nm = false)
    (h2 : pattern_check (FSNode.file nm lk) ps k = none) :
    processList k ps ex dry (FSNode.file nm lk :: rest) =
      (FSNode.file nm lk :: (processList k ps ex dry rest).1,
        (processList k ps ex dry rest).2) := by
  rw [processList]
  simp [FSNode.name, h1, h2]

/-! Small facts about the matcher and the exclusion filter. -/

theorem pattern_check_dir (nm : String) (r l : Bool) (cs : List FSNode)
    (ps : List String) (k : Kind) :
    pattern_check (FSNode.dir nm r l cs) ps k =
      if k = Kind.Folder then find nm ps else none := by
  cases k <;> simp [pattern_check, FSNode.isDir, FSNode.isFile, FSNode.name]

theorem pattern_check_file_node (nm : String) (l : Bool) (ps : List String) (k : Kind) :
    pattern_check (FSNode.file nm l) ps k =
      if k = Kind.File then find ((extensionOpt nm).getD "") ps else none := by
  cases k <;> simp [pattern_check, FSNode.isDir, FSNode.isFile, FSNode.name]

theorem excludeEvents_all (ex : List String) (f : Event → Bool)
    (h : ∀ nm, f (Event.excludeMsg nm) = true) :
    ∀ cs : List FSNode, (excludeEvents ex cs).all f = true := by
  intro cs
  induction cs with
  | nil => rfl
  | cons c rest ih =>
    by_cases hc : isExcluded ex c.name = true
    · simp [excludeEvents, List.filterMap_cons, hc] at ih ⊢
      exact ⟨h c.name, ih⟩
    · simp at hc
      simp [excludeEvents, List.filterMap_cons, hc] at ih ⊢
      exact ih

/-! Facts about path lookup and writeback. -/

theorem set_getElem?_self {α : Type} : ∀ (cs : List α) (i : Nat) (c : α),
    cs[i]? = some c → cs.set i c = cs
  | [], _, _, h => by simp at h
  | x :: xs, 0, c, h => by
    simp at h
    simp [List.set, h]
  | x :: xs, i + 1, c, h => by
    simp at h
    simp [List.set, set_getElem?_self xs i c h]

theorem findIdx?_of_find? {α : Type} (p : α → Bool) :
    ∀ (cs : List α) (c : α), cs.find? p = some c →
      ∃ i, cs.findIdx? p = some i ∧ cs[i]? = some c := by
  intro cs
  induction cs with
  | nil => intro c h; simp at h
  | cons x xs ih =>
    intro c h
    by_cases hp : p x = true
    · rw [List.find?_cons_of_pos _ hp] at h
      refine ⟨0, ?_, ?_⟩
      · simp [List.findIdx?_cons, hp]
      · simp at h
        simp [h]
    · simp at hp
      rw [List.find?_cons_of_neg _ (by simp [hp])] at h
      obtain ⟨i, hi, hc⟩ := ih c h
      refine ⟨i + 1, ?_, ?_⟩
      · simp [List.findIdx?_cons, hp, hi]
      · simpa using hc

theorem lookup_update_self : ∀ (dest : List String) (root t : FSNode),
    lookup dest root = some t → update dest root t = root
  | [], root, t, h => by
    simp [lookup] at h
    simp [update, h]
  | nm :: rest, FSNode.file n l, t, h => by
    simp [lookup] at h
  | nm :: rest, FSNode.dir n r l cs, t, h => by
    rw [lookup] at h
    cases hf : cs.find? (fun c => c.name == nm) with
    | none => rw [hf] at h; simp at h
    | some c =>
      rw [hf] at h
      simp only at h
      obtain ⟨i, hi, hc⟩ := findIdx?_of_find? _ cs c hf
      have hrec := lookup_update_self rest c t h
      simp only [update, hi, hc]
      rw [hrec, set_getElem?_self cs i c hc]

/-! Dry-run behaviour. -/

theorem excludeEvents_no_call (ex : List String) (cs : List FSNode) :
    (excludeEvents ex cs).all (fun e => !e.isRemovalCall) = true :=
  excludeEvents_all ex (fun e => !e.isRemovalCall) (fun _ => rfl) cs

theorem processList_dry_id (k : Kind) (ps ex : List String) (cs : List FSNode) :
    (processList k ps ex true cs).1 = cs ∧
      (processList k ps ex true cs).2.all (fun e => !e.isRemovalCall) = true := by
  induction cs using processList.induct k ps ex true with
  | case1 => simp [processList_nil]
  | case2 c rest h ih =>
    rw [processList_cons_excluded k ps ex true c rest h]
    exact ⟨by simp [ih.1], ih.2⟩
  | case3 c rest h1 h2 hd ih =>
    rw [processList_cons_matched_dry k ps ex c rest (by simpa using h1) h2]
    refine ⟨by simp [ih.1], ?_⟩
    simp only [List.all_cons, Bool.and_eq_true]
    exact ⟨rfl, ih.2⟩
  | case4 c rest h1 h2 hd hl ih => exact absurd rfl hd
  | case5 c rest h1 h2 hd hl ih => exact absurd rfl hd
  | case6 rest nm lk cs h1 h2 ih1 ih2 =>
    rw [processList_cons_dir_readable k ps ex true nm lk cs rest
      (by simpa [FSNode.name] using h1) (by simpa using h2)]
    refine ⟨by simp [ih1.1, ih2.1], ?_⟩
    simp only [List.all_append, Bool.and_eq_true]
    exact ⟨⟨excludeEvents_no_call ex cs, ih2.2⟩, ih1.2⟩
  | case7 rest nm lk cs h1 h2 ih =>
    rw [processList_cons_dir_unreadable k ps ex true nm lk cs rest
      (by simpa [FSNode.name] using h1) (by simpa using h2)]
    refine ⟨by simp [ih.1], ?_⟩
    simp only [List.all_cons, Bool.and_eq_true]
    exact ⟨rfl, ih.2⟩
  | case8 rest nm lk h1 h2 ih =>
    rw [processList_cons_file_unmatched k ps ex true nm lk rest
      (by simpa [FSNode.name] using h1) (by simpa using h2)]
    exact ⟨by simp [ih.1], ih.2⟩

theorem removeNode_dry_id (k : Kind) (ps ex : List String) (t : FSNode) :
    (removeNode k ps ex true t).1 = t ∧
      (removeNode k ps ex true t).2.all (fun e => !e.isRemovalCall) = true := by
  cases t with
  | file n l => exact ⟨rfl, rfl⟩
  | dir n r l cs =>
    cases r with
    | false => exact ⟨rfl, rfl⟩
    | true =>
      have h := processList_dry_id k ps ex cs
      constructor
      · show (FSNode.dir n true l (processList k ps ex true cs).1) = _
        rw [h.1]
      · show (excludeEvents ex cs ++ (processList k ps ex true cs).2).all _ = true
        simp only [List.all_append, Bool.and_eq_true]
        exact ⟨excludeEvents_no_call ex cs, h.2⟩

theorem removeAt_dry_id (root : FSNode) (dest : List String) (k : Kind)
    (ps ex : List String) :
    (removeAt root dest k ps ex true).1 = root ∧
      (removeAt root dest k ps ex true).2.all (fun e => !e.isRemovalCall) = true := by
  rw [removeAt]
  cases hl : lookup dest root with
  | none => simp
  | some t =>
    have h := removeNode_dry_id k ps ex t
    refine ⟨?_, ?_⟩
    · show update dest root (removeNode k ps ex true t).1 = root
      rw [h.1]
      exact lookup_update_self dest root t hl
    · show ((removeNode k ps ex true t).2.all fun e => !e.isRemovalCall) = true
      exact h.2

/-- C1: with dryrun set, the walker `helper::remove` never calls the
deletion routine `helper::remove_item` (the trace holds no Removed or
removal-error line) and the tree after the run is the tree before, at every
entry and for every destination path, kind, patterns and exclude set. -/
theorem dryrun_performs_no_mutation (k : Kind) (ps ex : List String) :
    (∀ t : FSNode, (removeNode k ps ex true t).1 = t ∧
        (removeNode k ps ex true t).2.all (fun e => !e.isRemovalCall) = true) ∧
    (∀ (root : FSNode) (dest : List String),
        (removeAt root dest k ps ex true).1 = root ∧
        (removeAt root dest k ps ex true).2.all (fun e => !e.isRemovalCall) = true) :=
  ⟨fun t => removeNode_dry_id k ps ex t,
   fun root dest => removeAt_dry_id root dest k ps ex⟩

/-! Exclusion precedence. -/

/-- C2: an entry whose name is case-insensitively in the exclude set is
suppressed by the lister (it is not among the returned children and only an
Exclude line is printed), and the walker loop leaves it exactly as it is —
no matcher verdict is acted on, no removal happens, no recursion into it
takes place and its subtree contributes no trace — whatever the kind and
patterns are. -/
theorem excluded_entry_is_invisible (k : Kind) (ps ex : List String) (dry : Bool)
    (c : FSNode) (rest : List FSNode) (entries : List (Except String FSNode))
    (h : isExcluded ex c.name = true) :
    childernLoop ex (Except.ok c :: entries) =
      ((childernLoop ex entries).1,
        Event.excludeMsg c.name :: (childernLoop ex entries).2) ∧
    processList k ps ex dry (c :: rest) =
      (c :: (processList k ps ex dry rest).1, (processList k ps ex dry rest).2) := by
  constructor
  · rw [childernLoop]
    simp [h]
  · exact processList_cons_excluded k ps ex dry c rest h

/-- C2 witness: the excluded directory node_modules (even matched by the
patterns, even written in different case) is kept untouched and only
reported as excluded. -/
theorem excluded_entry_is_invisible_witness :
    isExcluded ["node_modules"] (FSNode.dir "Node_Modules" true false
      [FSNode.file "x.tmp" false]).name = true ∧
    processList Kind.Folder ["node_modules"] ["node_modules"] false
        [FSNode.dir "Node_Modules" true false [FSNode.file "x.tmp" false]] =
      (FSNode.dir "Node_Modules" true false [FSNode.file "x.tmp" false] ::
          (processList Kind.Folder ["node_modules"] ["node_modules"] false []).1,
        (processList Kind.Folder ["node_modules"] ["node_modules"] false []).2) :=
  ⟨by decide,
    (excluded_entry_is_invisible Kind.Folder ["node_modules"] ["node_modules"] false
      (FSNode.dir "Node_Modules" true false [FSNode.file "x.tmp" false]) [] []
      (by decide)).2⟩

/-! The File-kind matcher. -/

theorem find_isSome_iff (s : String) (l : List String) :
    (find s l).isSome = true ↔ lowercase s ∈ l.map lowercase := by
  rw [find, Option.isSome_iff_ne_none]
  simp only [ne_eq, List.findIdx?_eq_none_iff]
  constructor
  · intro h
    push_neg at h
    obtain ⟨x, hx, hpx⟩ := h
    have hpx2 : lowercase x = lowercase s := by simpa using hpx
    exact hpx2 ▸ List.mem_map_of_mem lowercase hx
  · intro h hall
    obtain ⟨x, hx, hlow⟩ := List.mem_map.mp h
    have := hall x hx
    simp [hlow] at this

/-- C3 counterexample: the file name foo has no extension at all, yet under
a File rule whose pattern set contains the empty string the matcher reports
a match (the code turns a missing extension into the empty string before
the lookup), so an entry with no extension can match for some pattern
sets. -/
theorem file_rule_no_extension_match_counterexample :
    extensionOpt "foo" = none ∧
    (FSNode.file "foo" false).isFile = true ∧
    pattern_check (FSNode.file "foo" false) [""] Kind.File = some 0 :=
  ⟨by decide, rfl, by decide⟩

/-- C3 amended: under a File rule the matcher reports a match exactly when
the entry is currently a regular file and its extension — with a missing
extension replaced by the empty string — is, case-insensitively, a member
of the pattern set.  (In particular an entry with no extension matches
exactly when the empty string is in the pattern set, not never.) -/
theorem file_rule_match_iff (t : FSNode) (ps : List String) :
    (pattern_check t ps Kind.File).isSome = true ↔
      (t.isFile = true ∧
        lowercase ((extensionOpt t.name).getD "") ∈ ps.map lowercase) := by
  cases t with
  | file nm l =>
    rw [pattern_check_file_node]
    simp only [if_pos rfl, FSNode.isFile, FSNode.name, true_and]
    exact find_isSome_iff _ ps
  | dir nm r l cs =>
    rw [pattern_check_dir]
    simp [FSNode.isFile]

/-! Kind discrimination. -/

theorem filesOf_cons_file (nm : String) (lk : Bool) (cs : List FSNode) :
    filesOf (FSNode.file nm lk :: cs) = (nm, lk) :: filesOf cs := by
  simp [filesOf, List.filterMap_cons]

theorem filesOf_cons_dir (nm : String) (r lk : Bool) (ds cs : List FSNode) :
    filesOf (FSNode.dir nm r lk ds :: cs) = filesOf cs := by
  simp [filesOf, List.filterMap_cons]

theorem dirsOf_cons_file (nm : String) (lk : Bool) (cs : List FSNode) :
    dirsOf (FSNode.file nm lk :: cs) = dirsOf cs := by
  simp [dirsOf, List.filterMap_cons]

theorem dirsOf_cons_dir (nm : String) (r lk : Bool) (ds cs : List FSNode) :
    dirsOf (FSNode.dir nm r lk ds :: cs) = (nm, r, lk) :: dirsOf cs := by
  simp [dirsOf, List.filterMap_cons]

theorem folder_rule_preserves_files (ps ex : List String) (dry : Bool)
    (cs : List FSNode) :
    filesOf (processList Kind.Folder ps ex dry cs).1 = filesOf cs := by
  induction cs using processList.induct Kind.Folder ps ex dry with
  | case1 => rw [processList_nil]
  | case2 c rest h ih =>
    rw [processList_cons_excluded Kind.Folder ps ex dry c rest h]
    cases c with
    | file nm lk => simp only [filesOf_cons_file, ih]
    | dir nm r lk ds => simp only [filesOf_cons_dir, ih]
  | case3 c rest h1 h2 hd ih =>
    subst hd
    rw [processList_cons_matched_dry Kind.Folder ps ex c rest (by simpa using h1)
      h2]
    cases c with
    | file nm lk => simp only [filesOf_cons_file, ih]
    | dir nm r lk ds => simp only [filesOf_cons_dir, ih]
  | case4 c rest h1 h2 hd hl ih =>
    rw [Bool.not_eq_true] at hd
    subst hd
    rw [processList_cons_matched_locked Kind.Folder ps ex c rest
      (by simpa using h1) h2 hl]
    cases c with
    | file nm lk => simp only [filesOf_cons_file, ih]
    | dir nm r lk ds => simp only [filesOf_cons_dir, ih]
  | case5 c rest h1 h2 hd hl ih =>
    rw [Bool.not_eq_true] at hd hl
    subst hd
    rw [processList_cons_matched_removed Kind.Folder ps ex c rest
      (by simpa using h1) h2 hl]
    cases c with
    | file nm lk =>
      rw [pattern_check_file_node] at h2
      simp at h2
    | dir nm r lk ds => simp only [filesOf_cons_dir, ih]
  | case6 rest nm lk cs h1 h2 ih1 ih2 =>
    rw [processList_cons_dir_readable Kind.Folder ps ex dry nm lk cs rest
      (by simpa [FSNode.name] using h1) (by simpa using h2)]
    simp only [filesOf_cons_dir, ih1]
  | case7 rest nm lk cs h1 h2 ih =>
    rw [processList_cons_dir_unreadable Kind.Folder ps ex dry nm lk cs rest
      (by simpa [FSNode.name] using h1) (by simpa using h2)]
    simp only [filesOf_cons_dir, ih]
  | case8 rest nm lk h1 h2 ih =>
    rw [processList_cons_file_unmatched Kind.Folder ps ex dry nm lk rest
      (by simpa [FSNode.name] using h1) (by simpa using h2)]
    simp only [filesOf_cons_file, ih]

theorem file_rule_preserves_dirs (ps ex : List String) (dry : Bool)
    (cs : List FSNode) :
    dirsOf (processList Kind.File ps ex dry cs).1 = dirsOf cs := by
  induction cs using processList.induct Kind.File ps ex dry with
  | case1 => rw [processList_nil]
  | case2 c rest h ih =>
    rw [processList_cons_excluded Kind.File ps ex dry c rest h]
    cases c with
    | file nm lk => simp only [dirsOf_cons_file, ih]
    | dir nm r lk ds => simp only [dirsOf_cons_dir, ih]
  | case3 c rest h1 h2 hd ih =>
    subst hd
    rw [processList_cons_matched_dry Kind.File ps ex c rest (by simpa using h1)
      h2]
    cases c with
    | file nm lk => simp only [dirsOf_cons_file, ih]
    | dir nm r lk ds => simp only [dirsOf_cons_dir, ih]
  | case4 c rest h1 h2 hd hl ih =>
    rw [Bool.not_eq_true] at hd
    subst hd
    rw [processList_cons_matched_locked Kind.File ps ex c rest
      (by simpa using h1) h2 hl]
    cases c with
    | file nm lk => simp only [dirsOf_cons_file, ih]
    | dir nm r lk ds => simp only [dirsOf_cons_dir, ih]
  | case5 c rest h1 h2 hd hl ih =>
    rw [Bool.not_eq_true] at hd hl
    subst hd
    rw [processList_cons_matched_removed Kind.File ps ex c rest
      (by simpa using h1) h2 hl]
    cases c with
    | file nm lk => simp only [dirsOf_cons_file, ih]
    | dir nm r lk ds =>
      rw [pattern_check_dir] at h2
      simp at h2
  | case6 rest nm lk cs h1 h2 ih1 ih2 =>
    rw [processList_cons_dir_readable Kind.File ps ex dry nm lk cs rest
      (by simpa [FSNode.name] using h1) (by simpa using h2)]
    simp only [dirsOf_cons_dir, ih1]
  | case7 rest nm lk cs h1 h2 ih =>
    rw [processList_cons_dir_unreadable Kind.File ps ex dry nm lk cs rest
      (by simpa [FSNode.name] using h1) (by simpa using h2)]
    simp only [dirsOf_cons_dir, ih]
  | case8 rest nm lk h1 h2 ih =>
    rw [processList_cons_file_unmatched Kind.File ps ex dry nm lk rest
      (by simpa [FSNode.name] using h1) (by simpa using h2)]
    simp only [dirsOf_cons_file, ih]

/-- C4: the matcher never matches an entry whose current filesystem type
disagrees with the rule kind — a directory never matches under a File rule,
a regular file never matches under a Folder rule, whatever its name or
extension — and consequently the walker preserves every immediate directory
entry (name and flags) under a File rule and every immediate file entry
under a Folder rule, in every directory it processes. -/
theorem kind_discrimination :
    (∀ (nm : String) (r l : Bool) (cs : List FSNode) (ps : List String),
        pattern_check (FSNode.dir nm r l cs) ps Kind.File = none) ∧
    (∀ (nm : String) (l : Bool) (ps : List String),
        pattern_check (FSNode.file nm l) ps Kind.Folder = none) ∧
    (∀ (ps ex : List String) (dry : Bool) (cs : List FSNode),
        filesOf (processList Kind.Folder ps ex dry cs).1 = filesOf cs) ∧
    (∀ (ps ex : List String) (dry : Bool) (cs : List FSNode),
        dirsOf (processList Kind.File ps ex dry cs).1 = dirsOf cs) := by
  refine ⟨?_, ?_, folder_rule_preserves_files, file_rule_preserves_dirs⟩
  · intro nm r l cs ps
    rw [pattern_check_dir]
    simp
  · intro nm l ps
    rw [pattern_check_file_node]
    simp

/-! Handling of a matched child. -/

/-- C5: a matched, non-excluded child always produces the Removing intent
line; the remover runs exactly when dryrun is false (success drops the
child wholesale and prints Removed, failure prints an error and processing
continues with the siblings); the walker never recurses into a matched
child — its subtree is kept or dropped as a whole and contributes no trace
lines; recursion happens only for unmatched children that are currently
(readable) directories. -/
theorem matched_child_no_recursion (k : Kind) (ps ex : List String) (dry : Bool)
    (rest : List FSNode) :
    (∀ c : FSNode, isExcluded ex c.name = false →
      (pattern_check c ps k).isSome = true →
      processList k ps ex dry (c :: rest) =
        ((if dry || c.locked then c :: (processList k ps ex dry rest).1
          else (processList k ps ex dry rest).1),
         Event.removingMsg c.name ::
           ((if dry then ([] : List Event)
             else if c.locked then [Event.removeErrMsg c.name]
             else [Event.removedMsg c.name]) ++ (processList k ps ex dry rest).2))) ∧
    (∀ (nm : String) (lk : Bool) (cs : List FSNode),
      isExcluded ex nm = false →
      pattern_check (FSNode.dir nm true lk cs) ps k = none →
      processList k ps ex dry (FSNode.dir nm true lk cs :: rest) =
        (FSNode.dir nm true lk (processList k ps ex dry cs).1 ::
            (processList k ps ex dry rest).1,
          (excludeEvents ex cs ++ (processList k ps ex dry cs).2) ++
            (processList k ps ex dry rest).2)) := by
  constructor
  · intro c h1 h2
    cases dry with
    | true =>
      rw [processList_cons_matched_dry k ps ex c rest h1 h2]
      simp
    | false =>
      cases hl : c.locked with
      | true =>
        rw [processList_cons_matched_locked k ps ex c rest h1 h2 hl]
        simp
      | false =>
        rw [processList_cons_matched_removed k ps ex c rest h1 h2 hl]
        simp
  · intro nm lk cs h1 h2
    exact processList_cons_dir_readable k ps ex dry nm lk cs rest h1 h2

/-- C5 witness (matched-directory opacity): the Folder rule build removes
the directory build wholesale — its child keep.txt, which a File rule would
match, is never separately evaluated and leaves no trace line. -/
theorem matched_child_no_recursion_witness :
    isExcluded [] (FSNode.dir "build" true false
      [FSNode.file "keep.txt" false]).name = false ∧
    (pattern_check (FSNode.dir "build" true false [FSNode.file "keep.txt" false])
      ["build"] Kind.Folder).isSome = true ∧
    processList Kind.Folder ["build"] [] false
        [FSNode.dir "build" true false [FSNode.file "keep.txt" false]] =
      ((if false || (FSNode.dir "build" true false
            [FSNode.file "keep.txt" false]).locked then
          FSNode.dir "build" true false [FSNode.file "keep.txt" false] ::
            (processList Kind.Folder ["build"] [] false []).1
        else (processList Kind.Folder ["build"] [] false []).1),
       Event.removingMsg (FSNode.dir "build" true false
           [FSNode.file "keep.txt" false]).name ::
         ((if false then ([] : List Event)
           else if (FSNode.dir "build" true false
               [FSNode.file "keep.txt" false]).locked then
             [Event.removeErrMsg (FSNode.dir "build" true false
               [FSNode.file "keep.txt" false]).name]
           else [Event.removedMsg (FSNode.dir "build" true false
             [FSNode.file "keep.txt" false]).name]) ++
          (processList Kind.Folder ["build"] [] false []).2)) :=
  ⟨by decide, by decide,
    (matched_child_no_recursion Kind.Folder ["build"] [] false []).1
      (FSNode.dir "build" true false [FSNode.file "keep.txt" false])
      (by decide) (by decide)⟩

/-! Listing failures. -/

theorem childernLoop_append (ex : List String)
    (a b : List (Except String FSNode)) :
    childernLoop ex (a ++ b) =
      ((childernLoop ex a).1 ++ (childernLoop ex b).1,
        (childernLoop ex a).2 ++ (childernLoop ex b).2) := by
  induction a with
  | nil => simp [childernLoop]
  | cons e rest ih =>
    cases e with
    | error msg => simp [childernLoop, ih]
    | ok c =>
      by_cases h : isExcluded ex c.name = true
      · simp [childernLoop, ih, h]
      · rw [Bool.not_eq_true] at h
        simp [childernLoop, ih, h]

/-- C6: a failed directory read is reported and yields no children; a
failed individual entry is reported while every other entry is still
returned (wherever in the listing the failure occurs); and the walker
treats an unlistable directory as having no children — the node stays
as it is, one failure line is emitted, and the run continues. -/
theorem listing_failures_are_local (ex : List String) (msg : String) :
    childern (Except.error msg) ex = ([], [Event.readDirErrMsg]) ∧
    (∀ pre post : List (Except String FSNode),
      childernLoop ex (pre ++ Except.error msg :: post) =
        ((childernLoop ex pre).1 ++ (childernLoop ex post).1,
          (childernLoop ex pre).2 ++
            Event.readEntryErrMsg :: (childernLoop ex post).2)) ∧
    (∀ (k : Kind) (ps : List String) (dry : Bool) (n : String) (l : Bool)
        (cs : List FSNode),
      removeNode k ps ex dry (FSNode.dir n false l cs) =
        (FSNode.dir n false l cs, [Event.readDirErrMsg])) := by
  refine ⟨rfl, ?_, fun k ps dry n l cs => rfl⟩
  intro pre post
  rw [childernLoop_append]
  simp [childernLoop]

/-! Sequential execution of the rule list. -/

theorem runFold_eq_executeLoop (dry : Bool) :
    ∀ (cs : List Config) (fs : FSNode) (evs : List Event),
      cs.foldl (fun acc c =>
          let r := ruleStep dry acc.1 c
          (r.1, acc.2 ++ r.2)) (fs, evs) =
        ((executeLoop dry cs fs).1, evs ++ (executeLoop dry cs fs).2) := by
  intro cs
  induction cs with
  | nil =>
    intro fs evs
    simp [executeLoop]
  | cons c rest ih =>
    intro fs evs
    simp only [List.foldl_cons]
    rw [ih]
    simp [executeLoop, List.append_assoc]

/-- C7: `Manager::execute` performs exactly one walk per rule, in rule
order, each walk starting from the tree the previous walks left behind (the
loop is the left fold of the single-rule step over the config list), and it
returns `Ok(())` unconditionally — whatever failure lines the traversals
and removals emit, the subsequent rules still run and the result value is
success. -/
theorem execute_runs_rules_in_order (m : Manager) (fs : FSNode) :
    (m.execute fs).1 = runFold m.dryrun m.configs fs ∧
    (∀ (c : Config) (cs : List Config) (g : FSNode),
      executeLoop m.dryrun (c :: cs) g =
        ((executeLoop m.dryrun cs (ruleStep m.dryrun g c).1).1,
          (ruleStep m.dryrun g c).2 ++
            (executeLoop m.dryrun cs (ruleStep m.dryrun g c).1).2)) ∧
    (m.execute fs).2 = Except.ok () := by
  refine ⟨?_, fun c cs g => rfl, rfl⟩
  show executeLoop m.dryrun m.configs fs = runFold m.dryrun m.configs fs
  rw [runFold, runFold_eq_executeLoop m.dryrun m.configs fs []]
  simp

/-! Nonexistent destination and empty pattern set. -/

theorem pattern_check_nil_patterns (c : FSNode) (k : Kind) :
    pattern_check c [] k = none := by
  cases c with
  | file nm l =>
    rw [pattern_check_file_node]
    simp [find]
  | dir nm r l cs =>
    rw [pattern_check_dir]
    simp [find]

theorem traverseList_nil (ex : List String) : traverseList ex [] = [] := by
  rw [traverseList]

theorem traverseList_cons_excluded (ex : List String) (c : FSNode)
    (rest : List FSNode) (h : isExcluded ex c.name = true) :
    traverseList ex (c :: rest) = traverseList ex rest := by
  rw [traverseList.eq_def]
  simp [h]

theorem traverseList_cons_file (ex : List String) (nm : String) (lk : Bool)
    (rest : List FSNode) (h : isExcluded ex nm = false) :
    traverseList ex (FSNode.file nm lk :: rest) = traverseList ex rest := by
  rw [traverseList.eq_def]
  simp [FSNode.name, h]

theorem traverseList_cons_dir_unreadable (ex : List String) (nm : String)
    (lk : Bool) (cs rest : List FSNode) (h : isExcluded ex nm = false) :
    traverseList ex (FSNode.dir nm false lk cs :: rest) =
      Event.readDirErrMsg :: traverseList ex rest := by
  rw [traverseList.eq_def]
  simp [FSNode.name, h]

theorem traverseList_cons_dir_readable (ex : List String) (nm : String)
    (lk : Bool) (cs rest : List FSNode) (h : isExcluded ex nm = false) :
    traverseList ex (FSNode.dir nm true lk cs :: rest) =
      (excludeEvents ex cs ++ traverseList ex cs) ++ traverseList ex rest := by
  rw [traverseList.eq_def]
  simp [FSNode.name, h]

theorem processList_nil_patterns (k : Kind) (ex : List String) (dry : Bool)
    (cs : List FSNode) :
    processList k [] ex dry cs = (cs, traverseList ex cs) := by
  induction cs using processList.induct k [] ex dry with
  | case1 => rw [processList_nil, traverseList_nil]
  | case2 c rest h ih =>
    rw [processList_cons_excluded k [] ex dry c rest h,
      traverseList_cons_excluded ex c rest h]
    simp [ih]
  | case3 c rest h1 h2 hd ih =>
    rw [pattern_check_nil_patterns] at h2
    simp at h2
  | case4 c rest h1 h2 hd hl ih =>
    rw [pattern_check_nil_patterns] at h2
    simp at h2
  | case5 c rest h1 h2 hd hl ih =>
    rw [pattern_check_nil_patterns] at h2
    simp at h2
  | case6 rest nm lk cs h1 h2 ih1 ih2 =>
    have h1f : isExcluded ex nm = false := by simpa [FSNode.name] using h1
    rw [processList_cons_dir_readable k [] ex dry nm lk cs rest h1f
        (by simpa using h2),
      traverseList_cons_dir_readable ex nm lk cs rest h1f]
    simp [ih1, ih2]
  | case7 rest nm lk cs h1 h2 ih =>
    have h1f : isExcluded ex nm = false := by simpa [FSNode.name] using h1
    rw [processList_cons_dir_unreadable k [] ex dry nm lk cs rest h1f
        (by simpa using h2),
      traverseList_cons_dir_unreadable ex nm lk cs rest h1f]
    simp [ih]
  | case8 rest nm lk h1 h2 ih =>
    have h1f : isExcluded ex nm = false := by simpa [FSNode.name] using h1
    rw [processList_cons_file_unmatched k [] ex dry nm lk rest h1f
        (by simpa using h2),
      traverseList_cons_file ex nm lk rest h1f]
    simp [ih]

theorem removeNode_nil_patterns (k : Kind) (ex : List String) (dry : Bool)
    (t : FSNode) :
    removeNode k [] ex dry t = (t, traverseEvents ex t) := by
  cases t with
  | file n l => rfl
  | dir n r l cs =>
    cases r with
    | false => rfl
    | true =>
      show (FSNode.dir n true l (processList k [] ex dry cs).1,
        excludeEvents ex cs ++ (processList k [] ex dry cs).2) = _
      rw [processList_nil_patterns]
      rfl

/-- C8: a destination path that does not resolve makes the walker return
at once, with the tree unchanged and not a single trace line (lister,
matcher and remover contribute nothing); and a rule with an empty pattern
set still walks the entire subtree — its trace is exactly the full
traversal trace (Exclude and read-failure lines from arbitrarily deep
levels) — while removing nothing. -/
theorem missing_destination_or_empty_patterns (k : Kind) (ex : List String)
    (dry : Bool) :
    (∀ (root : FSNode) (dest ps : List String),
      lookup dest root = none →
      removeAt root dest k ps ex dry = (root, [])) ∧
    (∀ t : FSNode, removeNode k [] ex dry t = (t, traverseEvents ex t)) := by
  constructor
  · intro root dest ps h
    rw [removeAt, h]
  · exact removeNode_nil_patterns k ex dry

/-- C8 witness: walking a destination that does not exist leaves the root
untouched and reports nothing. -/
theorem missing_destination_or_empty_patterns_witness :
    lookup ["nope"] (FSNode.dir "r" true false [FSNode.file "a.tmp" false]) =
      none ∧
    removeAt (FSNode.dir "r" true false [FSNode.file "a.tmp" false]) ["nope"]
        Kind.File ["tmp"] [] false =
      (FSNode.dir "r" true false [FSNode.file "a.tmp" false], []) :=
  ⟨rfl, (missing_destination_or_empty_patterns Kind.File [] false).1
    (FSNode.dir "r" true false [FSNode.file "a.tmp" false]) ["nope"] ["tmp"] rfl⟩

/-! Idempotence of a non-dry run. -/

theorem excludeEvents_no_event (ex : List String) (cs : List FSNode) :
    (excludeEvents ex cs).all (fun e => !e.isRemovalEvent) = true :=
  excludeEvents_all ex (fun e => !e.isRemovalEvent) (fun _ => rfl) cs

theorem processList_idem (k : Kind) (ps ex : List String) (cs : List FSNode) :
    (processList k ps ex false cs).2.all (fun e => !e.isRemoveErr) = true →
      (processList k ps ex false (processList k ps ex false cs).1).1 =
        (processList k ps ex false cs).1 ∧
      (processList k ps ex false (processList k ps ex false cs).1).2.all
        (fun e => !e.isRemovalEvent) = true := by
  induction cs using processList.induct k ps ex false with
  | case1 =>
    intro _
    simp [processList_nil]
  | case2 c rest h ih =>
    rw [processList_cons_excluded k ps ex false c rest h]
    intro hall
    have ih2 := ih hall
    rw [processList_cons_excluded k ps ex false c
      (processList k ps ex false rest).1 h]
    refine ⟨?_, ih2.2⟩
    show c :: (processList k ps ex false (processList k ps ex false rest).1).1 =
      c :: (processList k ps ex false rest).1
    rw [ih2.1]
  | case3 c rest h1 h2 hd ih => simp at hd
  | case4 c rest h1 h2 hd hl ih =>
    rw [Bool.not_eq_true] at hd
    rw [processList_cons_matched_locked k ps ex c rest (by simpa using h1) h2 hl]
    intro hall
    simp only [List.all_cons, Bool.and_eq_true, Event.isRemoveErr] at hall
    simp at hall
  | case5 c rest h1 h2 hd hl ih =>
    rw [Bool.not_eq_true] at hl
    rw [processList_cons_matched_removed k ps ex c rest (by simpa using h1) h2 hl]
    intro hall
    simp only [List.all_cons, Bool.and_eq_true] at hall
    exact ih hall.2.2
  | case6 rest nm lk cs h1 h2 ih1 ih2 =>
    have h1f : isExcluded ex nm = false := by simpa [FSNode.name] using h1
    have h2n : pattern_check (FSNode.dir nm true lk cs) ps k = none := by
      simpa using h2
    rw [processList_cons_dir_readable k ps ex false nm lk cs rest h1f h2n]
    intro hall
    simp only [List.all_append, Bool.and_eq_true] at hall
    have ihc := ih2 hall.1.2
    have ihr := ih1 hall.2
    have h2b : pattern_check
        (FSNode.dir nm true lk (processList k ps ex false cs).1) ps k = none := by
      rw [pattern_check_dir] at h2n ⊢
      exact h2n
    rw [processList_cons_dir_readable k ps ex false nm lk
      (processList k ps ex false cs).1 (processList k ps ex false rest).1 h1f h2b]
    constructor
    · show FSNode.dir nm true lk
          (processList k ps ex false (processList k ps ex false cs).1).1 ::
            (processList k ps ex false (processList k ps ex false rest).1).1 =
        FSNode.dir nm true lk (processList k ps ex false cs).1 ::
          (processList k ps ex false rest).1
      rw [ihc.1, ihr.1]
    · show ((excludeEvents ex (processList k ps ex false cs).1 ++
          (processList k ps ex false (processList k ps ex false cs).1).2) ++
            (processList k ps ex false (processList k ps ex false rest).1).2).all
          (fun e => !e.isRemovalEvent) = true
      simp only [List.all_append, Bool.and_eq_true]
      exact ⟨⟨excludeEvents_no_event ex (processList k ps ex false cs).1, ihc.2⟩,
        ihr.2⟩
  | case7 rest nm lk cs h1 h2 ih =>
    have h1f : isExcluded ex nm = false := by simpa [FSNode.name] using h1
    have h2n : pattern_check (FSNode.dir nm false lk cs) ps k = none := by
      simpa using h2
    rw [processList_cons_dir_unreadable k ps ex false nm lk cs rest h1f h2n]
    intro hall
    simp only [List.all_cons, Bool.and_eq_true] at hall
    have ihr := ih hall.2
    rw [processList_cons_dir_unreadable k ps ex false nm lk cs
      (processList k ps ex false rest).1 h1f h2n]
    constructor
    · show FSNode.dir nm false lk cs ::
          (processList k ps ex false (processList k ps ex false rest).1).1 =
        FSNode.dir nm false lk cs :: (processList k ps ex false rest).1
      rw [ihr.1]
    · show (Event.readDirErrMsg ::
          (processList k ps ex false (processList k ps ex false rest).1).2).all
          (fun e => !e.isRemovalEvent) = true
      simp only [List.all_cons, Bool.and_eq_true]
      exact ⟨rfl, ihr.2⟩
  | case8 rest nm lk h1 h2 ih =>
    have h1f : isExcluded ex nm = false := by simpa [FSNode.name] using h1
    have h2n : pattern_check (FSNode.file nm lk) ps k = none := by simpa using h2
    rw [processList_cons_file_unmatched k ps ex false nm lk rest h1f h2n]
    intro hall
    have ihr := ih hall
    rw [processList_cons_file_unmatched k ps ex false nm lk
      (processList k ps ex false rest).1 h1f h2n]
    refine ⟨?_, ihr.2⟩
    show FSNode.file nm lk ::
        (processList k ps ex false (processList k ps ex false rest).1).1 =
      FSNode.file nm lk :: (processList k ps ex false rest).1
    rw [ihr.1]

/-- C9: when a non-dry run reports no removal failure, running the same
rule again on the resulting tree changes nothing and emits no Removing,
Removed or removal-error line — everything the matcher would match was
already deleted by the first run. -/
theorem second_run_removes_nothing (k : Kind) (ps ex : List String) (t : FSNode)
    (h : (removeNode k ps ex false t).2.all (fun e => !e.isRemoveErr) = true) :
    (removeNode k ps ex false (removeNode k ps ex false t).1).1 =
      (removeNode k ps ex false t).1 ∧
    (removeNode k ps ex false (removeNode k ps ex false t).1).2.all
      (fun e => !e.isRemovalEvent) = true := by
  cases t with
  | file n l => exact ⟨rfl, rfl⟩
  | dir n r l cs =>
    cases r with
    | false => exact ⟨rfl, rfl⟩
    | true =>
      have h2 : (processList k ps ex false cs).2.all
          (fun e => !e.isRemoveErr) = true := by
        have h3 : (excludeEvents ex cs ++ (processList k ps ex false cs).2).all
            (fun e => !e.isRemoveErr) = true := h
        simp only [List.all_append, Bool.and_eq_true] at h3
        exact h3.2
      have hi := processList_idem k ps ex cs h2
      constructor
      · show FSNode.dir n true l
            (processList k ps ex false (processList k ps ex false cs).1).1 =
          FSNode.dir n true l (processList k ps ex false cs).1
        rw [hi.1]
      · show (excludeEvents ex (processList k ps ex false cs).1 ++
            (processList k ps ex false (processList k ps ex false cs).1).2).all
            (fun e => !e.isRemovalEvent) = true
        simp only [List.all_append, Bool.and_eq_true]
        exact ⟨excludeEvents_no_event ex (processList k ps ex false cs).1, hi.2⟩

/-- C9 witness: after a first File-kind run deletes a.tmp and b.tmp, a
second identical run leaves the tree alone and reports no removal. -/
theorem second_run_removes_nothing_witness :
    ((removeNode Kind.File ["tmp"] [] false (FSNode.dir "root" true false
        [FSNode.file "a.tmp" false,
          FSNode.dir "sub" true false [FSNode.file "b.tmp" false]])).2.all
      (fun e => !e.isRemoveErr) = true) ∧
    (removeNode Kind.File ["tmp"] [] false
        (removeNode Kind.File ["tmp"] [] false (FSNode.dir "root" true false
          [FSNode.file "a.tmp" false,
            FSNode.dir "sub" true false [FSNode.file "b.tmp" false]])).1).1 =
      (removeNode Kind.File ["tmp"] [] false (FSNode.dir "root" true false
        [FSNode.file "a.tmp" false,
          FSNode.dir "sub" true false [FSNode.file "b.tmp" false]])).1 :=
  ⟨by simp [removeNode, processList, isExcluded, find, pattern_check, lowercase,
      extensionOpt, afterLastDot, FSNode.name, FSNode.isDir, FSNode.isFile,
      FSNode.locked, excludeEvents, Event.isRemoveErr],
    (second_run_removes_nothing Kind.File ["tmp"] [] (FSNode.dir "root" true false
      [FSNode.file "a.tmp" false,
        FSNode.dir "sub" true false [FSNode.file "b.tmp" false]])
      (by simp [removeNode, processList, isExcluded, find, pattern_check, lowercase,
        extensionOpt, afterLastDot, FSNode.name, FSNode.isDir, FSNode.isFile,
        FSNode.locked, excludeEvents, Event.isRemoveErr])).1⟩

/-! Validation of the configuration input. -/

/-- C10: when the config path exists with a json extension but the file
contents fail to parse as a rule list, `Manager::validate` returns the
error and leaves the configs list exactly as it was (atomic on configs),
while the dryrun flag has already been overwritten with the engine value
before the failure — so validate is not atomic on the whole Manager
state. -/
theorem validate_parse_failure_atomicity (m : Manager) (e : Engine)
    (cf : ConfigFile) (txt perr : String)
    (h1 : e.config = some cf) (h2 : cf.pathExists = true)
    (h3 : lowercase ((extensionOpt cf.fileName).getD "") = "json")
    (h4 : cf.readResult = Except.ok txt)
    (h5 : cf.parseResult = Except.error perr) :
    (m.validate e).1.configs = m.configs ∧
    (m.validate e).1.dryrun = e.dryrun ∧
    (m.validate e).2 = Except.error (AppError.parseErr perr) := by
  rw [Manager.validate, h1]
  simp only [h2, h3, Manager.parse, h4, h5]
  exact ⟨rfl, rfl, rfl⟩

/-- C10 witness: a manager holding one rule and dryrun set, validated
against an engine with dryrun unset and an unparsable json config, keeps
its configs, reports the parse error, and has its dryrun flag overwritten
to the engine value. -/
theorem validate_parse_failure_atomicity_witness :
    (Manager.validate ⟨[⟨["d"], Kind.File, ["tmp"], none⟩], true⟩
        ⟨some ⟨true, "rules.json", Except.ok "[oops", Except.error "bad"⟩,
          none, none, none, none, false⟩).1.configs =
      [⟨["d"], Kind.File, ["tmp"], none⟩] ∧
    (Manager.validate ⟨[⟨["d"], Kind.File, ["tmp"], none⟩], true⟩
        ⟨some ⟨true, "rules.json", Except.ok "[oops", Except.error "bad"⟩,
          none, none, none, none, false⟩).1.dryrun = false ∧
    (Manager.validate ⟨[⟨["d"], Kind.File, ["tmp"], none⟩], true⟩
        ⟨some ⟨true, "rules.json", Except.ok "[oops", Except.error "bad"⟩,
          none, none, none, none, false⟩).2 =
      Except.error (AppError.parseErr "bad") :=
  validate_parse_failure_atomicity
    ⟨[⟨["d"], Kind.File, ["tmp"], none⟩], true⟩
    ⟨some ⟨true, "rules.json", Except.ok "[oops", Except.error "bad"⟩,
      none, none, none, none, false⟩
    ⟨true, "rules.json", Except.ok "[oops", Except.error "bad"⟩
    "[oops" "bad" rfl rfl (by decide) rfl rfl

end Cleanup
